import Mathlib

/-!
# Verification of the pkgproxy download-deduplication engine

Shallow embedding of the core of `cmd/pkgproxy.go` and its `internal`
helpers (`Cache`, `PerfectWriter`, `ConcurrentWORMSeekCloser`), together
with theorems settling the specification claims about request parsing,
request classification, the cache-entry reference-count lifecycle, the
best-effort client writer, the primary downloader's error paths, the
rename/timestamp commit step, and the tail-follower loop.

Strings from the Go side are modelled as lists of characters (`Str`);
request URLs produced by `net/http` are escaped, so Go's byte-based
`len`/`strings.Split`/`strings.HasSuffix` coincide with the character
level ones used here.
-/

deriving instance DecidableEq for Except

namespace PkgProxy

abbrev Str := List Char

/-- Embedding of Go `strings.HasSuffix s suffix`. -/
def hasSuffix (s suffix : Str) : Bool :=
  suffix.isSuffixOf s

/-- Embedding of Go `strings.Split s "/"`: splits at every `/`,
keeping empty fields, and yields `[""]` on the empty string. -/
def splitSlash : Str → List Str
  | [] => [[]]
  | c :: cs =>
    if c = '/' then [] :: splitSlash cs
    else
      match splitSlash cs with
      | s :: rest => (c :: s) :: rest
      | [] => [[c]]

/-- `request` from `pkgproxy.go` (the four fields filled by `newRequest`;
the cache-entry binding and file status are tracked separately by the
classification model below). -/
structure Request where
  Repo : Str
  OS : Str
  Arch : Str
  File : Str
  deriving Repr, DecidableEq

/-- The body of `newRequest` after the split: Go takes
`urlSplit := strings.Split(requestURL, "/")[1:]` and then requires
`len(urlSplit) >= 4 && len(urlSplit[3]) >= 3`. -/
def parseSegs (segs : List Str) : Except Unit Request :=
  if segs.length < 4 ∨ (segs.getD 3 []).length < 3 then
    .error ()
  else
    .ok ⟨segs.getD 0 [], segs.getD 1 [], segs.getD 2 [], segs.getD 3 []⟩

/-- Embedding of `newRequest` (pkgproxy.go lines 115-123). -/
def newRequest (requestURL : Str) : Except Unit Request :=
  parseSegs ((splitSlash requestURL).drop 1)

/-- What the top-level HTTP `handler` does with a request line before any
cache logic: reject non-GET with 501, map parse failure to 400, else
dispatch the parsed request. -/
inductive HandlerAction where
  | respond (code : Nat)
  | dispatch (r : Request)
  deriving Repr, DecidableEq

/-- Embedding of `handler` (pkgproxy.go lines 360-377). -/
def handler (method : Str) (requestURL : Str) : HandlerAction :=
  if method ≠ "GET".data then .respond 501
  else
    match newRequest requestURL with
    | .error _ => .respond 400
    | .ok r => .dispatch r

/-! ## Request classification (`handleRequest`, lines 299-357) -/

/-- The `fileStatus` constants of pkgproxy.go. -/
inductive FileStatus where
  | cached
  | inDownload
  | missing
  | noCaching
  deriving Repr, DecidableEq

/-- The outcome of `os.Stat` on the final cache path as the classification
`switch` distinguishes it: success, `os.ErrNotExist`, or any other error. -/
inductive StatResult where
  | found
  | notExist
  | otherError
  deriving Repr, DecidableEq

/-- The registry `sharedState : util.Cache[string, *cacheEntry]` restricted
to the field the classification reads and writes: an association from file
name to the entry's reference count. -/
abbrev Registry := List (Str × Nat)

/-- Go map read `cache[req.File]`. -/
def regLookup : Registry → Str → Option Nat
  | [], _ => none
  | (k, n) :: rest, key => if k = key then some n else regLookup rest key

/-- The effect of `entry.RefCount++` on the registry view. -/
def bump : Registry → Str → Registry
  | [], _ => []
  | (k, n) :: rest, key =>
    if k = key then (k, n + 1) :: rest else (k, n) :: bump rest key

/-- The condition of the first `switch` case in `handleRequest`:
`strings.HasSuffix(req.File, ".db") || strings.HasSuffix(req.File, ".db.sig")`. -/
def isDbFile (file : Str) : Bool :=
  hasSuffix file ".db".data || hasSuffix file ".db.sig".data

/-- Embedding of the classification body `handleRequest` runs inside
`sharedState.LockedDo` (lines 303-332), including
`newCacheEntryFromRequest` (lines 145-156) whose `os.OpenFile` outcome is
the `openOk` input.  Returns the computed status and updated registry, or
an error when the locked section returns one (stat failure other than
not-exist, or cache-file creation failure). -/
def classify (file : Str) (stat : StatResult) (openOk : Bool) (reg : Registry) :
    Except Unit (FileStatus × Registry) :=
  if isDbFile file then
    .ok (.noCaching, reg)
  else
    match stat with
    | .notExist =>
      match regLookup reg file with
      | some _ => .ok (.inDownload, bump reg file)
      | none => if openOk then .ok (.missing, (file, 1) :: reg) else .error ()
    | .found => .ok (.cached, reg)
    | .otherError => .error ()

/-- Observable outcome of `handleRequest` up to handler dispatch:
which handler (if any) was dispatched, whether a fresh entry was created,
the status code `handleRequest` itself writes to the client before/without
dispatching (`none`: nothing written — on a classification error the code
only logs and returns), and whether the "Cache error" log line fired. -/
structure HandlerOutcome where
  dispatched : Option FileStatus
  entryCreated : Bool
  response : Option Nat
  loggedCacheError : Bool
  deriving Repr, DecidableEq

/-- Embedding of `handleRequest` (lines 299-357) around `classify`. -/
def handleRequest (file : Str) (stat : StatResult) (openOk : Bool) (reg : Registry) :
    HandlerOutcome :=
  match classify file stat openOk reg with
  | .error _ => ⟨none, false, none, true⟩
  | .ok (st, _) => ⟨some st, st = FileStatus.missing, none, false⟩

/-! ## PerfectWriter (PerfectWriter.go) -/

/-- One call to `PerfectWriter.Write`: the data passed, and the error the
wrapped destination writer returns if this call is forwarded to it
(errors abstracted as numeric codes, `none` = nil). -/
structure WriteCall where
  data : List Nat
  destErr : Option Nat
  deriving Repr, DecidableEq

/-- A run of a `PerfectWriter`: the stored error `w.err`, the
`(n, err)` pairs returned to the caller of each `Write`, and the data
slices actually forwarded to the wrapped destination. -/
structure PWRun where
  err : Option Nat
  rets : List (Nat × Option Nat)
  forwarded : List (List Nat)
  deriving Repr, DecidableEq

/-- Embedding of `PerfectWriter.Write` (lines 450-455): while `w.err` is
nil the data is forwarded and the destination's error stored; afterwards
nothing is forwarded; the caller always gets `(len(data), nil)`. Returns
(new stored error, whether the call was forwarded, value returned). -/
def pwWrite (err : Option Nat) (c : WriteCall) : Option Nat × Bool × (Nat × Option Nat) :=
  match err with
  | none => (c.destErr, true, (c.data.length, none))
  | some e => (some e, false, (c.data.length, none))

/-- Folding `pwWrite` over a sequence of calls, collecting observations. -/
def pwRun (err : Option Nat) : List WriteCall → PWRun
  | [] => ⟨err, [], []⟩
  | c :: cs =>
    let (err1, fwd, ret) := pwWrite err c
    let rest := pwRun err1 cs
    ⟨rest.err, ret :: rest.rets, if fwd then c.data :: rest.forwarded else rest.forwarded⟩

/-- Spec-side description (from the claim's words) of the data forwarded
to the destination: every call up to and including the first failing
destination write, nothing afterwards. -/
def forwardedSpec : List WriteCall → List (List Nat)
  | [] => []
  | c :: cs => c.data :: (if c.destErr.isSome then [] else forwardedSpec cs)

/-- Spec-side description of `Error()`: the first error the destination
returned. -/
def firstErrSpec : List WriteCall → Option Nat
  | [] => none
  | c :: cs =>
    match c.destErr with
    | some e => some e
    | none => firstErrSpec cs

/-! ## Cache-entry lifecycle (`newCacheEntryFromRequest`, `cacheCleaner`) -/

/-- One atomic locked section (or primary-only filesystem step) touching a
single cache entry's lifecycle. `create` is the `fileStatusMissing` branch
of the classification plus `newCacheEntryFromRequest`; `join` is the
`fileStatusInDownload` branch's `entry.RefCount++`; `rename` is the
primary's successful `renameTempFile`; `clean isPrimary` is one run of the
deferred `cacheCleaner` (lines 338-352) by a request whose status was
`fileStatusMissing` (primary) or not. -/
inductive CacheOp where
  | create
  | join
  | rename
  | clean (isPrimary : Bool)
  deriving Repr, DecidableEq

/-- Lifecycle state of one cache entry (one generation of one key) plus
the bits of filesystem state the cleaner touches. -/
structure CacheState where
  present : Bool
  refCount : Nat
  completeClosed : Bool
  fileClosed : Bool
  tempExists : Bool
  renamed : Bool
  removals : Nat
  tempDeleted : Bool
  deriving Repr, DecidableEq

def initCacheState : CacheState := ⟨false, 0, false, false, false, false, 0, false⟩

/-- Effect of one lifecycle operation as the Go code performs it.
`create` opens the temp file with `O_CREATE` and inserts the entry with
`RefCount: 1`; `rename` moves the temp file when it exists (recording a
successful rename); `clean` closes `Complete` for the primary, decrements,
and at zero closes the file, runs `os.Remove` on the temp path (which
deletes it exactly when it still exists), and deletes the map entry. -/
def cacheStep (s : CacheState) : CacheOp → CacheState
  | .create => { s with present := true, refCount := 1, tempExists := true }
  | .join => { s with refCount := s.refCount + 1 }
  | .rename => if s.tempExists then { s with tempExists := false, renamed := true } else s
  | .clean isPrimary =>
    let s1 := { s with completeClosed := s.completeClosed || isPrimary,
                       refCount := s.refCount - 1 }
    if s1.refCount = 0 then
      { s1 with fileClosed := true, tempDeleted := s1.tempDeleted || s1.tempExists,
                tempExists := false, present := false, removals := s1.removals + 1 }
    else s1

/-- When the Go control flow can execute an operation: an entry is created
only for an absent key (and we track one generation, so never after a
removal), `join` and `rename` require the entry to be live, the primary
renames at most once, and each `clean` belongs to a distinct bound request
so runs while the count is positive. -/
def validOp (s : CacheState) : CacheOp → Bool
  | .create => !s.present && decide (s.removals = 0) && decide (s.refCount = 0)
  | .join => s.present
  | .rename => s.present && !s.renamed
  | .clean _ => s.present && decide (1 ≤ s.refCount)

def runOps (s : CacheState) : List CacheOp → CacheState
  | [] => s
  | op :: ops => runOps (cacheStep s op) ops

def validTrace (s : CacheState) : List CacheOp → Bool
  | [] => true
  | op :: ops => validOp s op && validTrace (cacheStep s op) ops

def countJoins (ops : List CacheOp) : Nat :=
  ops.countP (fun op => op == .join)

def countCleans (ops : List CacheOp) : Nat :=
  ops.countP (fun op => match op with | .clean _ => true | _ => false)

def hasPrimaryClean (ops : List CacheOp) : Bool :=
  ops.any (fun op => op == .clean true)

/-- Invariant of a live entry: in the registry, positive count, file and
registry entry untouched by the cleaner, and the temp file exists exactly
while it was not renamed. -/
def liveInv (s : CacheState) (alive : Nat) : Prop :=
  s.present = true ∧ s.refCount = alive ∧ s.removals = 0 ∧ s.fileClosed = false ∧
    s.tempDeleted = false ∧ s.tempExists = !s.renamed

/-- State after the last bound request cleaned up: removed from the
registry exactly once, file closed, and the temp file was deleted by the
cleaner exactly when it was never successfully renamed. -/
def deadInv (s : CacheState) : Prop :=
  s.present = false ∧ s.refCount = 0 ∧ s.removals = 1 ∧ s.fileClosed = true ∧
    s.tempExists = false ∧ s.tempDeleted = !s.renamed

/-! ## Tail follower (`fileHandlerInDownload`, lines 257-297) -/

/-- External events of one iteration of the polling loop: which `select`
branch fired (`Complete` closed vs. ticker tick), the result of the
`File.Seek(0, io.SeekCurrent)` length query, and whether the `io.Copy` of
the delta to the client succeeds. -/
structure FollowEvent where
  isComplete : Bool
  seekResult : Except Unit Nat
  copyOk : Bool
  deriving Repr, DecidableEq

/-- Loop state of `fileHandlerInDownload`. `aborted` records an exit via
`break`; `outerErr` is the `err` declared before the loop — the Go body
re-declares `err` with `:=` inside the loop, so `outerErr` is never
assigned, while `break` still fires on the shadowed error. -/
structure FollowState where
  fileSize : Nat
  done : Bool
  sent : List Nat
  aborted : Bool
  outerErr : Bool
  deriving Repr, DecidableEq

def initFollow : FollowState := ⟨0, false, [], false, false⟩

/-- One execution of the loop body (lines 270-290). `data` is the full
byte sequence the primary writes to the append file; by the append-file
invariant a length query returning `n` means the first `n` bytes of `data`
are durably readable, so the `io.NewSectionReader` copy of
`[fileSize, newSize)` delivers `(data.take newSize).drop fileSize`. -/
def followStep (data : List Nat) (s : FollowState) (e : FollowEvent) : FollowState :=
  let s1 := { s with done := s.done || e.isComplete }
  match e.seekResult with
  | .error _ => { s1 with aborted := true }
  | .ok newSize =>
    if newSize ≤ s1.fileSize then s1
    else if e.copyOk then
      { s1 with sent := s1.sent ++ (data.take newSize).drop s1.fileSize,
                fileSize := newSize }
    else { s1 with aborted := true }

/-- The `for !done` loop: the loop condition is tested before each body
run, so the iteration in which `Complete` fires still performs its length
check and delta flush before the loop exits; `break` (`aborted`) stops
immediately. -/
def followRun (data : List Nat) : FollowState → List FollowEvent → FollowState
  | s, [] => s
  | s, e :: es =>
    if s.done || s.aborted then s
    else followRun data (followStep data s e) es

/-- The final log decision of `fileHandlerInDownload` (lines 292-296):
the error branch is taken iff the outer `err` is non-nil. -/
def followReportsError (s : FollowState) : Bool := s.outerErr

/-! ## Commit step (`renameTempFile`, lines 174-181) -/

/-- Filesystem state for the commit step: the temporary and final cache
files of one request, with times as abstract instants. -/
structure CommitFS where
  tempExists : Bool
  tempMtime : Nat
  finalExists : Bool
  finalMtime : Nat
  finalAtime : Nat
  deriving Repr, DecidableEq

/-- Embedding of `renameTempFile`. `tsParse` is the result of `time.Parse`
on the upstream Last-Modified header (`some ts` when it parses), `now` the
clock at the call. `os.Rename` moves the temp file — preserving its
modification time — and fails if it is absent; when the parse succeeded,
`os.Chtimes(final, now, ts)` then stamps the final file (its error is
discarded). The returned error is the rename's. -/
def renameTempFile (tsParse : Option Nat) (now : Nat) (fs : CommitFS) :
    CommitFS × Option Unit :=
  let (fs1, err) :=
    if fs.tempExists then
      ({ fs with tempExists := false, finalExists := true,
                 finalMtime := fs.tempMtime }, none)
    else (fs, some ())
  match tsParse with
  | some ts =>
    (if fs1.finalExists then { fs1 with finalMtime := ts, finalAtime := now } else fs1, err)
  | none => (fs1, err)

/-! ## Upstream phase of the primary downloader
(`fileHandlerMissingOrUncacheable`, lines 207-217) -/

/-- Result of `http.Get` on the upstream URL: transport error, or a
response carrying its status code and body. -/
inductive FetchResult where
  | transportError
  | response (status : Nat) (body : List Nat)
  deriving Repr, DecidableEq

/-- What the upstream phase decides: the status written (or about to be
streamed) to the client, the body bytes written to the cache file during
this phase, and whether the handler proceeds to header mirroring and
streaming. -/
structure MissingOutcome where
  clientStatus : Nat
  cacheBytes : List Nat
  proceeded : Bool
  deriving Repr, DecidableEq

/-- Embedding of the fetch-and-check prologue: `http.Get` error → 500 and
return; `resp.StatusCode != http.StatusOK` (i.e. ≠ 200) → mirror the
upstream status and return; otherwise fall through to the streaming phase.
Both early returns happen before any write to the cache file. -/
def upstreamPhase : FetchResult → MissingOutcome
  | .transportError => ⟨500, [], false⟩
  | .response st _ => if st ≠ 200 then ⟨st, [], false⟩ else ⟨200, [], true⟩

/-! ## Helper lemmas -/

theorem regLookup_bump (reg : Registry) (file : Str) (n : Nat)
    (h : regLookup reg file = some n) :
    regLookup (bump reg file) file = some (n + 1) := by
  induction reg with
  | nil => simp [regLookup] at h
  | cons kv rest ih =>
    obtain ⟨k, m⟩ := kv
    by_cases hk : k = file
    · subst hk
      simp [regLookup] at h
      simp [bump, regLookup, h]
    · simp [regLookup, hk] at h
      simp [bump, regLookup, hk]
      exact ih h

theorem pwRun_stopped (e : Nat) (cs : List WriteCall) :
    pwRun (some e) cs = ⟨some e, cs.map (fun c => (c.data.length, none)), []⟩ := by
  induction cs with
  | nil => rfl
  | cons c cs ih => simp [pwRun, pwWrite, ih]

/-- Once an entry has been removed from the registry (and our generation
tracks a single `create`), no further lifecycle operation is valid. -/
theorem validTrace_dead (s : CacheState) (hp : s.present = false) (hr : s.removals ≠ 0)
    (ops : List CacheOp) (h : validTrace s ops = true) : ops = [] := by
  cases ops with
  | nil => rfl
  | cons op ops =>
    exfalso
    rw [validTrace, Bool.and_eq_true] at h
    obtain ⟨hop, _⟩ := h
    cases op with
    | create =>
      simp [validOp, hp] at hop
      exact hr hop.1
    | join => simp [validOp, hp] at hop
    | rename => simp [validOp, hp] at hop
    | clean p => simp [validOp, hp] at hop

/-- Main lifecycle invariant: starting from a live entry with `alive`
outstanding bound requests, any valid continuation keeps the count equal
to binds minus cleans, closes `Complete` exactly when a primary cleaned,
and removes the entry (closing the file and deleting the temp file iff it
was never renamed) exactly at the clean that returns the count to 0. -/
theorem c2_aux (ops : List CacheOp) :
    ∀ (s : CacheState) (alive : Nat), 1 ≤ alive → liveInv s alive →
      validTrace s ops = true →
      countCleans ops ≤ alive + countJoins ops ∧
      (runOps s ops).completeClosed = (s.completeClosed || hasPrimaryClean ops) ∧
      (countCleans ops < alive + countJoins ops →
        liveInv (runOps s ops) (alive + countJoins ops - countCleans ops)) ∧
      (countCleans ops = alive + countJoins ops → deadInv (runOps s ops)) := by
  induction ops with
  | nil =>
    intro s alive h1 hinv _
    refine ⟨by simp [countCleans, countJoins], by simp [hasPrimaryClean, runOps], ?_, ?_⟩
    · intro _
      simpa [runOps, countJoins, countCleans] using hinv
    · intro h
      simp [countCleans, countJoins] at h
      omega
  | cons op ops ih =>
    intro s alive h1 hinv hv
    rw [validTrace, Bool.and_eq_true] at hv
    obtain ⟨hop, htr⟩ := hv
    obtain ⟨hpres, hrc, hrem, hfc, htd, hte⟩ := hinv
    have hrun : runOps s (op :: ops) = runOps (cacheStep s op) ops := rfl
    cases op with
    | create => simp [validOp, hpres] at hop
    | join =>
      have e1 : countJoins (CacheOp.join :: ops) = countJoins ops + 1 := by
        simp [countJoins, List.countP_cons]
      have e2 : countCleans (CacheOp.join :: ops) = countCleans ops := by
        simp [countCleans, List.countP_cons]
      have e3 : hasPrimaryClean (CacheOp.join :: ops) = hasPrimaryClean ops := by
        simp [hasPrimaryClean, List.any_cons]
      have hinv2 : liveInv (cacheStep s .join) (alive + 1) := by
        refine ⟨?_, ?_, ?_, ?_, ?_, ?_⟩ <;>
          simp [cacheStep, hpres, hrc, hrem, hfc, htd, hte]
      obtain ⟨ha, hb, hc, hd⟩ := ih (cacheStep s .join) (alive + 1) (by omega) hinv2 htr
      rw [hrun, e1, e2, e3]
      refine ⟨by omega, ?_, ?_, ?_⟩
      · rw [hb]
        have hcc : (cacheStep s CacheOp.join).completeClosed = s.completeClosed := rfl
        rw [hcc]
      · intro hlt
        have harg : alive + (countJoins ops + 1) - countCleans ops
            = alive + 1 + countJoins ops - countCleans ops := by omega
        rw [harg]
        exact hc (by omega)
      · intro heq
        exact hd (by omega)
    | rename =>
      simp [validOp, hpres] at hop
      have hte2 : s.tempExists = true := by rw [hte, hop]; rfl
      have e1 : countJoins (CacheOp.rename :: ops) = countJoins ops := by
        simp [countJoins, List.countP_cons]
      have e2 : countCleans (CacheOp.rename :: ops) = countCleans ops := by
        simp [countCleans, List.countP_cons]
      have e3 : hasPrimaryClean (CacheOp.rename :: ops) = hasPrimaryClean ops := by
        simp [hasPrimaryClean, List.any_cons]
      have hstep : cacheStep s .rename = { s with tempExists := false, renamed := true } := by
        simp [cacheStep, hte2]
      have hinv2 : liveInv (cacheStep s .rename) alive := by
        rw [hstep]
        exact ⟨hpres, hrc, hrem, hfc, htd, rfl⟩
      obtain ⟨ha, hb, hc, hd⟩ := ih (cacheStep s .rename) alive h1 hinv2 htr
      rw [hrun, e1, e2, e3]
      refine ⟨ha, ?_, hc, hd⟩
      rw [hb, hstep]
    | clean p =>
      have e1 : countJoins (CacheOp.clean p :: ops) = countJoins ops := by
        simp [countJoins, List.countP_cons]
      have e2 : countCleans (CacheOp.clean p :: ops) = countCleans ops + 1 := by
        simp [countCleans, List.countP_cons]
      have e3 : hasPrimaryClean (CacheOp.clean p :: ops) = (p || hasPrimaryClean ops) := by
        cases p <;> simp [hasPrimaryClean, List.any_cons]
      by_cases halive : alive = 1
      · subst halive
        have hstep : cacheStep s (.clean p) =
            ⟨false, 0, s.completeClosed || p, true, false, s.renamed, 1, !s.renamed⟩ := by
          simp [cacheStep, hrc, hrem, htd, hte]
        have hnil : ops = [] :=
          validTrace_dead _ (by rw [hstep]) (by rw [hstep]; simp) ops htr
        subst hnil
        rw [hrun, e1, e2, e3]
        refine ⟨by simp [countCleans, countJoins], ?_, ?_, ?_⟩
        · simp [runOps, hstep, hasPrimaryClean]
        · intro hlt
          simp [countCleans, countJoins] at hlt
        · intro _
          refine ⟨?_, ?_, ?_, ?_, ?_, ?_⟩ <;> simp [runOps, hstep]
      · have h2 : 2 ≤ alive := by omega
        have hne : ¬(s.refCount - 1 = 0) := by
          rw [hrc]
          omega
        have hstep : cacheStep s (.clean p) =
            { s with completeClosed := s.completeClosed || p,
                     refCount := s.refCount - 1 } := by
          simp [cacheStep, hne]
        have hinv2 : liveInv (cacheStep s (.clean p)) (alive - 1) := by
          rw [hstep]
          exact ⟨hpres, by simp [hrc], hrem, hfc, htd, hte⟩
        obtain ⟨ha, hb, hc, hd⟩ := ih (cacheStep s (.clean p)) (alive - 1) (by omega) hinv2 htr
        rw [hrun, e1, e2, e3]
        refine ⟨by omega, ?_, ?_, ?_⟩
        · rw [hb, hstep]
          simp [Bool.or_assoc]
        · intro hlt
          have harg : alive + countJoins ops - (countCleans ops + 1)
              = alive - 1 + countJoins ops - countCleans ops := by omega
          rw [harg]
          exact hc (by omega)
        · intro heq
          exact hd (by omega)

/-! ## Claim theorems -/

/-- C6 (amended): parsing succeeds — yielding exactly the first four
segments as {repository, osLabel, architecture, fileName} — precisely when
the slash-split path (leading empty segment dropped) has at least four
segments and the fourth has length at least 3; the first three segments
are not required to be non-empty, and on any failing form the HTTP handler
answers 400 Bad Request. -/
theorem c6_parse_characterization (url : Str) :
    (newRequest url =
        .ok ⟨((splitSlash url).drop 1).getD 0 [], ((splitSlash url).drop 1).getD 1 [],
             ((splitSlash url).drop 1).getD 2 [], ((splitSlash url).drop 1).getD 3 []⟩ ↔
      4 ≤ ((splitSlash url).drop 1).length ∧
        3 ≤ (((splitSlash url).drop 1).getD 3 []).length) ∧
    (¬(4 ≤ ((splitSlash url).drop 1).length ∧
        3 ≤ (((splitSlash url).drop 1).getD 3 []).length) →
      handler "GET".data url = .respond 400) := by
  constructor
  · constructor
    · intro hok
      unfold newRequest parseSegs at hok
      split at hok
      · exact absurd hok (by simp)
      · next h =>
        push_neg at h
        omega
    · intro h
      unfold newRequest parseSegs
      rw [if_neg (by omega)]
  · intro h
    have hne : newRequest url = .error () := by
      unfold newRequest parseSegs
      rw [if_pos (by omega)]
    simp [handler, hne]

/-- C6 witness: the three-segment path `/a/b/c` fails parsing and is
answered with 400. -/
theorem c6_witness : handler "GET".data "/a/b/c".data = .respond 400 :=
  (c6_parse_characterization "/a/b/c".data).2 (by decide)

/-- C6 counterexample: the claim requires every path with an empty
repository segment to fail, but `//b/c/abcd` — whose repository segment is
empty — parses successfully. -/
theorem c6_counterexample :
    newRequest "//b/c/abcd".data = .ok ⟨[], "b".data, "c".data, "abcd".data⟩ := by
  decide

/-- C10 (amended): a path with more than four segments parses — provided
the fourth segment has length at least 3 — using only the first four
segments: the file name is the fourth segment, the extras are ignored, the
result coincides with parsing the truncated four-segment path, and the
handler dispatches the same request as if the extras were absent. -/
theorem c10_extra_segments (a b c d : Str) (rest : List Str) (hd : 3 ≤ d.length) :
    parseSegs (a :: b :: c :: d :: rest) = .ok ⟨a, b, c, d⟩ ∧
      parseSegs (a :: b :: c :: d :: rest) = parseSegs [a, b, c, d] ∧
      ∀ url, (splitSlash url).drop 1 = a :: b :: c :: d :: rest →
        handler "GET".data url = .dispatch ⟨a, b, c, d⟩ := by
  have hok : parseSegs (a :: b :: c :: d :: rest) = .ok ⟨a, b, c, d⟩ := by
    unfold parseSegs
    rw [if_neg (by simp [List.getD]; omega)]
    simp [List.getD]
  refine ⟨hok, ?_, ?_⟩
  · rw [hok]
    unfold parseSegs
    rw [if_neg (by simp [List.getD]; omega)]
    simp [List.getD]
  · intro url hurl
    have : newRequest url = .ok ⟨a, b, c, d⟩ := by
      unfold newRequest
      rw [hurl, hok]
    simp [handler, this]

/-- C10 witness: `/a/b/c/name.pkg/extra` parses to the first four segments
and dispatches as if `/extra` were absent. -/
theorem c10_witness :
    parseSegs ["a".data, "b".data, "c".data, "name.pkg".data, "extra".data] =
      .ok ⟨"a".data, "b".data, "c".data, "name.pkg".data⟩ :=
  (c10_extra_segments "a".data "b".data "c".data "name.pkg".data ["extra".data]
    (by decide)).1

/-- C10 counterexample: `/a/b/c/xy/z` has five segments, yet parsing fails
(the fourth segment `xy` is shorter than 3), refuting the claim that every
path with more than four segments parses successfully. -/
theorem c10_counterexample :
    ((splitSlash "/a/b/c/xy/z".data).drop 1).length = 5 ∧
      newRequest "/a/b/c/xy/z".data = .error () := by
  decide

/-- C4: every `Write` on a `PerfectWriter` returns `(len(data), nil)` to
its caller; the data forwarded to the wrapped destination is exactly every
call up to and including the first failing destination write and nothing
after it; and the stored error is exactly the first error the destination
returned. -/
theorem c4_perfect_writer (calls : List WriteCall) :
    (pwRun none calls).rets = calls.map (fun c => (c.data.length, none)) ∧
      (pwRun none calls).forwarded = forwardedSpec calls ∧
      (pwRun none calls).err = firstErrSpec calls := by
  induction calls with
  | nil => exact ⟨rfl, rfl, rfl⟩
  | cons c cs ih =>
    cases hc : c.destErr with
    | none => simp [pwRun, pwWrite, forwardedSpec, firstErrSpec, hc, ih.1, ih.2.1, ih.2.2]
    | some e => simp [pwRun, pwWrite, forwardedSpec, firstErrSpec, hc, pwRun_stopped]

/-- C5 (amended): a transport error on the upstream fetch yields 500, a
response with status other than exactly 200 — including non-200 2xx
statuses — yields the upstream status mirrored to the client, both without
any body byte written to the cache file (the temp file, never renamed, is
then deleted by the cleaner); only a 200 response proceeds to header
mirroring and streaming. -/
theorem c5_upstream_errors :
    upstreamPhase .transportError = ⟨500, [], false⟩ ∧
      (∀ st body, st ≠ 200 → upstreamPhase (.response st body) = ⟨st, [], false⟩) ∧
      (∀ body, upstreamPhase (.response 200 body) = ⟨200, [], true⟩) ∧
      (cacheStep (cacheStep initCacheState .create) (.clean true)).tempDeleted = true := by
  refine ⟨rfl, ?_, fun _ => rfl, by decide⟩
  intro st body h
  simp [upstreamPhase, h]

/-- C5 witness: an upstream 404 is mirrored with no cache write. -/
theorem c5_witness : upstreamPhase (.response 404 [1]) = ⟨404, [], false⟩ :=
  c5_upstream_errors.2.1 404 [1] (by decide)

/-- C5 counterexample: 204 is in the 2xx success class, but the handler
does not proceed to streaming — it mirrors 204 as an error status, because
the code compares against exactly `http.StatusOK`. -/
theorem c5_counterexample :
    (200 ≤ 204 ∧ 204 ≤ 299) ∧
      (upstreamPhase (.response 204 [7])).proceeded = false ∧
      (upstreamPhase (.response 204 [7])).clientStatus = 204 := by
  decide

/-- C7 (amended): when the existence check fails with an error other than
not-exist (and the name is not a database file, which would short-circuit
to `noCaching`), the request is fatal: no handler is dispatched, no
registry entry is created, the cache error is logged, and nothing — in
particular no 500 — is written to the client by `handleRequest`. -/
theorem c7_stat_error_fatal (file : Str) (openOk : Bool) (reg : Registry)
    (hdb : isDbFile file = false) :
    handleRequest file .otherError openOk reg = ⟨none, false, none, true⟩ := by
  simp [handleRequest, classify, hdb]

/-- C7 witness: a stat failure on `foo.pkg.tar` dispatches nothing and
writes nothing. -/
theorem c7_witness :
    handleRequest "foo.pkg.tar".data .otherError true [] = ⟨none, false, none, true⟩ :=
  c7_stat_error_fatal "foo.pkg.tar".data true [] (by decide)

/-- C7 counterexample: on a stat error for `foo.pkg` the claim demands a
500 response, but `handleRequest` writes nothing at all to the client. -/
theorem c7_counterexample :
    handleRequest "foo.pkg".data .otherError true [] = ⟨none, false, none, true⟩ ∧
      (handleRequest "foo.pkg".data .otherError true []).response ≠ some 500 := by
  decide

/-- C8 (amended): whenever the temp file exists, `renameTempFile` renames
it to the final path and returns no error regardless of whether the
Last-Modified header parses; the final file's modification time is the
parsed header value when it parses, and otherwise stays the temp file's
own modification time (the time of the last cache write) — not the time of
the rename. -/
theorem c8_commit (tsParse : Option Nat) (now : Nat) (fs : CommitFS)
    (h : fs.tempExists = true) :
    ((renameTempFile tsParse now fs).2 = none ∧
      (renameTempFile tsParse now fs).1.finalExists = true ∧
      (renameTempFile tsParse now fs).1.tempExists = false) ∧
    (renameTempFile tsParse now fs).1.finalMtime =
      (match tsParse with | some ts => ts | none => fs.tempMtime) := by
  cases tsParse <;> simp [renameTempFile, h]

/-- C8 witness: with a parseable header the final mtime is the parsed
value; the rename happened and reported no error. -/
theorem c8_witness :
    ((renameTempFile (some 7) 9 ⟨true, 5, false, 0, 0⟩).2 = none ∧
      (renameTempFile (some 7) 9 ⟨true, 5, false, 0, 0⟩).1.finalExists = true ∧
      (renameTempFile (some 7) 9 ⟨true, 5, false, 0, 0⟩).1.tempExists = false) ∧
    (renameTempFile (some 7) 9 ⟨true, 5, false, 0, 0⟩).1.finalMtime = 7 :=
  c8_commit (some 7) 9 ⟨true, 5, false, 0, 0⟩ rfl

/-- C8 counterexample: when the Last-Modified header does not parse, the
renamed file keeps the temp file's modification time (5 here), not the
time of the rename (9) as the claim states. -/
theorem c8_counterexample :
    (renameTempFile none 9 ⟨true, 5, false, 0, 0⟩).1.finalMtime = 5 ∧
      (renameTempFile none 9 ⟨true, 5, false, 0, 0⟩).1.finalMtime ≠ 9 ∧
      (renameTempFile none 9 ⟨true, 5, false, 0, 0⟩).2 = none := by
  decide

/-- C3: classification order inside the locked section. A database file
name is `noCaching` whatever the stat result, registry and open outcome,
with the registry untouched; otherwise an existing cache file is `cached`;
otherwise a live registry entry makes the request `inDownload` with that
entry's count incremented; otherwise a fresh entry with count 1 is
inserted and the request is `missing`. -/
theorem c3_classification (file : Str) (stat : StatResult) (openOk : Bool) (reg : Registry) :
    (isDbFile file = true → classify file stat openOk reg = .ok (.noCaching, reg)) ∧
    (isDbFile file = false → stat = .found →
        classify file stat openOk reg = .ok (.cached, reg)) ∧
    (∀ n, isDbFile file = false → stat = .notExist → regLookup reg file = some n →
        classify file stat openOk reg = .ok (.inDownload, bump reg file) ∧
          regLookup (bump reg file) file = some (n + 1)) ∧
    (isDbFile file = false → stat = .notExist → regLookup reg file = none → openOk = true →
        classify file stat openOk reg = .ok (.missing, (file, 1) :: reg) ∧
          regLookup ((file, 1) :: reg) file = some 1) := by
  refine ⟨?_, ?_, ?_, ?_⟩
  · intro hdb
    simp [classify, hdb]
  · intro hdb hst
    subst hst
    simp [classify, hdb]
  · intro n hdb hst hlook
    subst hst
    exact ⟨by simp [classify, hdb, hlook], regLookup_bump reg file n hlook⟩
  · intro hdb hst hlook hopen
    subst hst
    exact ⟨by simp [classify, hdb, hlook, hopen], by simp [regLookup]⟩

/-- C3 witness: a `.db` name is `noCaching` even under a stat error, and a
join on a live entry bumps its count from 2 to 3. -/
theorem c3_witness :
    classify "core.db".data .otherError true [] = .ok (.noCaching, []) ∧
      classify "foo.pkg".data .notExist true [("foo.pkg".data, 2)] =
        .ok (.inDownload, [("foo.pkg".data, 3)]) :=
  ⟨(c3_classification "core.db".data .otherError true []).1 (by decide),
   by
    have h := ((c3_classification "foo.pkg".data .notExist true
        [("foo.pkg".data, 2)]).2.2.1 2 (by decide) rfl (by decide)).1
    exact h.trans (by decide)⟩

/-- C2: along any valid lifecycle trace of one entry (created with count 1
by its primary, joined by followers, cleaned exactly once per bound
request), the count always equals binds minus cleanups; `Complete` is
closed exactly when a primary's cleanup ran; while any bound request
remains the entry stays in the registry untouched; and the cleanup that
returns the count to 0 removes the entry exactly once, closes the file
handle, and deletes the temporary file iff it was never successfully
renamed. -/
theorem c2_lifecycle (ops : List CacheOp)
    (h : validTrace (cacheStep initCacheState .create) ops = true) :
    countCleans ops ≤ 1 + countJoins ops ∧
      (runOps (cacheStep initCacheState .create) ops).completeClosed = hasPrimaryClean ops ∧
      (countCleans ops < 1 + countJoins ops →
        liveInv (runOps (cacheStep initCacheState .create) ops)
          (1 + countJoins ops - countCleans ops)) ∧
      (countCleans ops = 1 + countJoins ops →
        deadInv (runOps (cacheStep initCacheState .create) ops)) := by
  have hinv : liveInv (cacheStep initCacheState .create) 1 :=
    ⟨rfl, rfl, rfl, rfl, rfl, rfl⟩
  obtain ⟨ha, hb, hc, hd⟩ := c2_aux ops (cacheStep initCacheState .create) 1 (by omega) hinv h
  refine ⟨ha, ?_, hc, hd⟩
  rw [hb]
  exact Bool.false_or (hasPrimaryClean ops)

/-- C2 witness: a primary and one follower, with a successful rename: the
trace is valid, and after both cleanups the entry is removed once, the
file closed, and the temp file not deleted by the cleaner (it was
renamed). -/
theorem c2_witness :
    deadInv (runOps (cacheStep initCacheState .create)
      [CacheOp.join, .rename, .clean true, .clean false]) :=
  (c2_lifecycle [CacheOp.join, .rename, .clean true, .clean false]
    (by decide)).2.2.2 (by decide)

theorem followRun_exit (data : List Nat) (s : FollowState) (es : List FollowEvent)
    (h : (s.done || s.aborted) = true) : followRun data s es = s := by
  cases es with
  | nil => rfl
  | cons e es => simp [followRun, h]

theorem followRun_append (data : List Nat) (es es' : List FollowEvent) :
    ∀ s : FollowState,
      followRun data s (es ++ es') = followRun data (followRun data s es) es' := by
  induction es with
  | nil => intro s; rfl
  | cons e es ih =>
    intro s
    by_cases h : (s.done || s.aborted) = true
    · rw [followRun_exit data s (e :: es) h, followRun_exit data s ((e :: es) ++ es') h,
        followRun_exit data s es' h]
    · rw [Bool.not_eq_true] at h
      show followRun data s (e :: (es ++ es')) = _
      rw [followRun, followRun, if_neg (by simp [h]), if_neg (by simp [h])]
      exact ih (followStep data s e)

theorem followStep_inv (data : List Nat) (s : FollowState) (e : FollowEvent)
    (h1 : s.sent = data.take s.fileSize) (h2 : s.fileSize ≤ data.length)
    (hb : ∀ n, e.seekResult = .ok n → n ≤ data.length) :
    (followStep data s e).sent = data.take (followStep data s e).fileSize ∧
      (followStep data s e).fileSize ≤ data.length := by
  unfold followStep
  cases hres : e.seekResult with
  | error u => exact ⟨h1, h2⟩
  | ok n =>
    have hn : n ≤ data.length := hb n hres
    by_cases hle : n ≤ s.fileSize
    · simpa [hle] using ⟨h1, h2⟩
    · by_cases hcopy : e.copyOk = true
      · simp only [hle, if_false, hcopy, if_true]
        refine ⟨?_, hn⟩
        show s.sent ++ (data.take n).drop s.fileSize = data.take n
        rw [h1]
        have hmin : data.take s.fileSize = (data.take n).take s.fileSize := by
          rw [List.take_take]
          congr 1
          omega
        rw [hmin, List.take_append_drop]
      · simp only [hle, if_false, hcopy]
        exact ⟨h1, h2⟩

theorem followRun_take (data : List Nat) (es : List FollowEvent) :
    ∀ s : FollowState, s.sent = data.take s.fileSize → s.fileSize ≤ data.length →
      (∀ e ∈ es, ∀ n, e.seekResult = .ok n → n ≤ data.length) →
      (followRun data s es).sent = data.take (followRun data s es).fileSize ∧
        (followRun data s es).fileSize ≤ data.length := by
  induction es with
  | nil => intro s h1 h2 _; exact ⟨h1, h2⟩
  | cons e es ih =>
    intro s h1 h2 hball
    by_cases h : (s.done || s.aborted) = true
    · rw [followRun_exit data s (e :: es) h]
      exact ⟨h1, h2⟩
    · rw [Bool.not_eq_true] at h
      rw [followRun, if_neg (by simp [h])]
      obtain ⟨hs1, hs2⟩ := followStep_inv data s e h1 h2
        (fun n hn => hball e (List.mem_cons_self e es) n hn)
      exact ih (followStep data s e) hs1 hs2
        (fun e2 he2 n hn => hball e2 (List.mem_cons_of_mem e he2) n hn)

/-- C1: whenever every length query returns at most the number of bytes
written (`data` being the bytes the primary appends, so that the segment
read `[fileSize, newSize)` yields those bytes of `data`), the bytes a
follower delivers are exactly the concatenation of the deltas it streams,
which at every point equals the prefix `data.take fileSize` of the cache
file — no byte duplicated, none skipped; and on the iteration in which
`completed` fires the handler still performs one final length check,
flushes the last delta `[fileSize, n)`, and exits with `done`. -/
theorem c1_follower_bytes (data : List Nat) (events : List FollowEvent)
    (hbound : ∀ e ∈ events, ∀ n, e.seekResult = .ok n → n ≤ data.length) :
    ((followRun data initFollow events).sent
        = data.take (followRun data initFollow events).fileSize ∧
      (followRun data initFollow events).fileSize ≤ data.length) ∧
    (∀ es e n, events = es ++ [e] → e.isComplete = true → e.seekResult = .ok n →
      e.copyOk = true →
      (followRun data initFollow es).done = false →
      (followRun data initFollow es).aborted = false →
      (followRun data initFollow events).done = true ∧
        (followRun data initFollow events).fileSize
          = max (followRun data initFollow es).fileSize n) := by
  constructor
  · exact followRun_take data events initFollow rfl (by simp [initFollow]) hbound
  · intro es e n heq hcomp hseek hcopy hdone habort
    subst heq
    rw [followRun_append]
    have hstop : (((followRun data initFollow es).done
        || (followRun data initFollow es).aborted) = false) := by
      rw [hdone, habort]
      rfl
    rw [followRun, if_neg (by simp [hstop])]
    set mid := followRun data initFollow es with hmid
    show (followRun data (followStep data mid e) []).done = true ∧
      (followRun data (followStep data mid e) []).fileSize = max mid.fileSize n
    rw [followRun]
    unfold followStep
    rw [hseek]
    by_cases hle : n ≤ mid.fileSize
    · simp only [hle, if_true]
      refine ⟨by simp [hcomp], ?_⟩
      show mid.fileSize = max mid.fileSize n
      omega
    · simp only [hle, if_false, hcopy, if_true]
      refine ⟨by simp [hcomp], ?_⟩
      show n = max mid.fileSize n
      omega

/-- C1 witness: a follower that observes sizes 2 then (on completion) 3 of
a 3-byte file delivers exactly the file's bytes, and the completion
iteration flushes the final delta. -/
theorem c1_witness :
    (((followRun [10, 11, 12] initFollow
        [⟨false, .ok 2, true⟩, ⟨true, .ok 3, true⟩]).sent
          = [10, 11, 12].take (followRun [10, 11, 12] initFollow
              [⟨false, .ok 2, true⟩, ⟨true, .ok 3, true⟩]).fileSize ∧
      (followRun [10, 11, 12] initFollow
        [⟨false, .ok 2, true⟩, ⟨true, .ok 3, true⟩]).fileSize ≤ [10, 11, 12].length) ∧
    (∀ es e n,
      [(⟨false, .ok 2, true⟩ : FollowEvent), ⟨true, .ok 3, true⟩] = es ++ [e] →
      e.isComplete = true → e.seekResult = .ok n → e.copyOk = true →
      (followRun [10, 11, 12] initFollow es).done = false →
      (followRun [10, 11, 12] initFollow es).aborted = false →
      (followRun [10, 11, 12] initFollow
        [⟨false, .ok 2, true⟩, ⟨true, .ok 3, true⟩]).done = true ∧
        (followRun [10, 11, 12] initFollow
          [⟨false, .ok 2, true⟩, ⟨true, .ok 3, true⟩]).fileSize
            = max (followRun [10, 11, 12] initFollow es).fileSize n)) :=
  c1_follower_bytes [10, 11, 12] [⟨false, .ok 2, true⟩, ⟨true, .ok 3, true⟩]
    (by
      intro e he n hn
      show n ≤ 3
      rcases he with _ | ⟨_, he⟩
      · simp at hn
        omega
      · rcases he with _ | ⟨_, he⟩
        · simp at hn
          omega
        · cases he)

/-- C9 (code bug): a failed length query does abort the polling loop, but
the loop body's `newSize, err := ...` re-declares `err`, shadowing the
`err` checked after the loop — so the handler's final log line reports
success ("File in download served") instead of the error the claim (and
the code's own error-reporting branch) calls for. Evaluated at the
failing input: a single iteration whose `Seek` fails. -/
theorem c9_error_swallowed :
    (followRun [] initFollow [⟨false, .error (), true⟩]).aborted = true ∧
      followReportsError (followRun [] initFollow [⟨false, .error (), true⟩]) = false := by
  decide

end PkgProxy
